import Mathlib

/-!
# Verification of the Wordle statistics bot core (src/index.js)

Shallow embedding of the score-line parser, the in-memory score store, the
windowed aggregator, the historical backfill crawler and the two event
handlers of `src/index.js`, together with proofs settling the frozen claims
about them.

Modelling conventions:
* JS strings are Lean `String`/`List Char`; timestamps (JS `Date` compared
  by epoch value) are `Int` milliseconds, except for the slash-command
  window computation where the civil-field mutators `setHours`/`setMonth`/
  `setFullYear` are modelled on a civil `JSDate` record.
* The clock read `new Date()` inside `parseWordleScore` (line 40) is made
  explicit as a `now : Int` parameter: the function's result at clock value
  `now` is the embedding of calling it at that instant.
* The JS `Map` `userScores` is an insertion-ordered association list.
* The `while (true)` fetch loop is embedded with an explicit fuel
  parameter; the returned `done` flag is `true` exactly when the loop ended
  through one of its own exits (`break`/`return`), not through fuel
  exhaustion, and the `visited` list records the fetched messages in
  iteration order (the code tracks only their count, `messagesProcessed`).
-/

namespace WordleBot

/-! ## Characters: JS `\s`, `\d`, ASCII case folding -/

/-- ASCII lower-casing, the canonicalisation relevant to the `/i` flag on
the letters appearing in `WORDLE_REGEX`. -/
def charLower (c : Char) : Char :=
  if 'A' ≤ c ∧ c ≤ 'Z' then Char.ofNat (c.toNat + 32) else c

/-- ASCII upper-casing, modelling `match[2].toUpperCase()` on the single
character captured by `[1-6X]` under `/i`. -/
def charUpper (c : Char) : Char :=
  if 'a' ≤ c ∧ c ≤ 'z' then Char.ofNat (c.toNat - 32) else c

/-- The character class `\d`. -/
def isDigitChar (c : Char) : Bool := '0' ≤ c && c ≤ '9'

/-- The JS character class `\s` (ECMAScript WhiteSpace and LineTerminator). -/
def isSpaceChar (c : Char) : Bool :=
  c = ' ' || ('\x09' ≤ c && c ≤ '\x0d') || c = ' ' || c = ' ' ||
  (' ' ≤ c && c ≤ ' ') || c = ' ' || c = ' ' ||
  c = ' ' || c = ' ' || c = '　' || c = '﻿'

/-- The result-token class `[1-6X]` under the `/i` flag. -/
def isResultToken (c : Char) : Bool := ('1' ≤ c && c ≤ '6') || c = 'X' || c = 'x'

/-- Value of a digit string, modelling `parseInt` on the all-digit captures
of `WORDLE_REGEX` (groups 1 after comma removal, 2 when a digit, and 3). -/
def digitsToNat (s : List Char) : Nat :=
  s.foldl (fun acc c => acc * 10 + (c.toNat - '0'.toNat)) 0

/-! ## The regex `WORDLE_REGEX = /Wordle\s+(\d+,?\d*)\s+([1-6X])\/(\d+)(\*?)/i`

The matcher below is deterministic even though JS regexes backtrack:
every quantified sub-pattern here is followed by a pattern whose first
character class is disjoint from the quantified class (`\s+` is followed by
`\d`/`[1-6X]`, `\d+`/`\d*` by `,`/`\s`/`\*`-or-end, `,?` by `\d*\s`), so
giving back characters can never turn a failure into a success and maximal
munch agrees with the backtracking semantics. -/

/-- Captures of one match: group 1 (puzzle number, possibly with a comma),
group 2 (the single result token), group 3 (max attempts), group 4 (`*` or
empty). -/
abbrev Captures := List Char × Char × List Char × List Char

/-- Case-insensitive literal match; on success returns the rest of the
input. -/
def matchLit : List Char → List Char → Option (List Char)
  | [], s => some s
  | _ :: _, [] => none
  | c :: cs, x :: xs => if charLower x = charLower c then matchLit cs xs else none

/-- Match `WORDLE_REGEX` anchored at the head of the input. -/
def matchAt (s : List Char) : Option Captures :=
  match matchLit "wordle".data s with
  | none => none
  | some s1 =>
    if s1.takeWhile isSpaceChar = [] then none else
    let s2 := s1.dropWhile isSpaceChar
    let d1 := s2.takeWhile isDigitChar
    if d1 = [] then none else
    let s3 := s2.dropWhile isDigitChar
    let comma : List Char := match s3 with | ',' :: _ => [','] | _ => []
    let s4 : List Char := match s3 with | ',' :: rest => rest | _ => s3
    let d2 := s4.takeWhile isDigitChar
    let s5 := s4.dropWhile isDigitChar
    if s5.takeWhile isSpaceChar = [] then none else
    match s5.dropWhile isSpaceChar with
    | [] => none
    | c :: s7 =>
      if isResultToken c then
        match s7 with
        | '/' :: s8 =>
          let d3 := s8.takeWhile isDigitChar
          if d3 = [] then none else
          let s9 := s8.dropWhile isDigitChar
          let g4 : List Char := match s9 with | '*' :: _ => ['*'] | _ => []
          some (d1 ++ comma ++ d2, c, d3, g4)
        | _ => none
      else none

/-- Unanchored leftmost search, the semantics of `content.match(WORDLE_REGEX)`:
try each start position from the left, first success wins. -/
def searchMatch : List Char → Option Captures
  | [] => matchAt []
  | s@(_ :: t) =>
    match matchAt s with
    | some g => some g
    | none => searchMatch t

/-! ## Data model -/

/-- One parsed puzzle result, the object built at lines 35–41 of
`src/index.js` (field names as in the source; the spec calls `wordleNumber`
"puzzleNumber" and `score` "attempts"). -/
structure ScoreRecord where
  wordleNumber : Nat
  score : Nat
  maxAttempts : Nat
  hardMode : Bool
  timestamp : Int
deriving DecidableEq, Repr

/-- Function `parseWordleScore(content)` (lines 22–44). `now` is the value of the
clock read `new Date()` at line 40. -/
def parseWordleScore (content : String) (now : Int) : Option ScoreRecord :=
  match searchMatch content.data with
  | none => none
  | some (g1, g2, g3, g4) =>
    let wordleNumberStr := g1.filter (fun c => c ≠ ',')
    let wordleNumber := digitsToNat wordleNumberStr
    let maxAttempts := digitsToNat g3
    let hardMode := g4 = ['*']
    let scoreValue := if charUpper g2 = 'X' then 7 else digitsToNat [g2]
    some { wordleNumber := wordleNumber, score := scoreValue,
           maxAttempts := maxAttempts, hardMode := hardMode, timestamp := now }

/-- The `userScores` map (line 19): a JS `Map` keyed by author id, i.e. an
insertion-ordered association list. -/
abbrev Store := List (Nat × List ScoreRecord)

/-- The store-append idiom used at lines 169–176 and 205–212:
`if (!userScores.has(id)) userScores.set(id, []); userScores.get(id).push(r)`. -/
def recordScore (st : Store) (uid : Nat) (r : ScoreRecord) : Store :=
  if st.any (fun e => e.1 == uid) then
    st.map (fun e => if e.1 == uid then (e.1, e.2 ++ [r]) else e)
  else
    st ++ [(uid, [r])]

/-- Membership of a record in the store. -/
def storeMem (r : ScoreRecord) (st : Store) : Prop := ∃ e ∈ st, r ∈ e.2

/-- The records the store holds for one user (`userScores.get(uid)`). -/
def userRecords (st : Store) (uid : Nat) : List ScoreRecord :=
  match st.find? (fun e => e.1 == uid) with
  | some e => e.2
  | none => []

/-! ## Aggregator: `calculateStats` (lines 47–83) -/

/-- The fixed 7-bucket score distribution built at lines 60–70. -/
structure Distribution where
  d1 : Nat
  d2 : Nat
  d3 : Nat
  d4 : Nat
  d5 : Nat
  d6 : Nat
  dX : Nat
deriving DecidableEq, Repr

def emptyDistribution : Distribution := ⟨0, 0, 0, 0, 0, 0, 0⟩

/-- One step of the distribution loop (lines 64–70):
`if (s >= 1 && s <= 6) distribution[s]++; else distribution.X++`. -/
def distAdd (d : Distribution) (s : Nat) : Distribution :=
  if 1 ≤ s ∧ s ≤ 6 then
    match s with
    | 1 => { d with d1 := d.d1 + 1 }
    | 2 => { d with d2 := d.d2 + 1 }
    | 3 => { d with d3 := d.d3 + 1 }
    | 4 => { d with d4 := d.d4 + 1 }
    | 5 => { d with d5 := d.d5 + 1 }
    | 6 => { d with d6 := d.d6 + 1 }
    | _ => d
  else
    { d with dX := d.dX + 1 }

def distSum (d : Distribution) : Nat :=
  d.d1 + d.d2 + d.d3 + d.d4 + d.d5 + d.d6 + d.dX

/-- Model of `parseFloat(x.toFixed(2))`: rounding to two decimal places.  The
attempt averages arising here are non-negative, for which `toFixed` rounds
half up; double-formatting quirks are below the granularity of any claim. -/
def roundTo2 (q : ℚ) : ℚ := ((Rat.floor (q * 100 + 1 / 2) : ℤ) : ℚ) / 100

/-- One per-user leaderboard row (lines 72–77). -/
structure UserStat where
  userId : Nat
  totalGames : Nat
  averageScore : ℚ
  distribution : Distribution
deriving DecidableEq

/-- The sort key of `stats.sort((a, b) => a.averageScore - b.averageScore)`. -/
def statLE (a b : UserStat) : Prop := a.averageScore ≤ b.averageScore

instance : DecidableRel statLE :=
  fun a b => inferInstanceAs (Decidable (a.averageScore ≤ b.averageScore))

instance : IsTotal UserStat statLE :=
  ⟨fun a b => le_total a.averageScore b.averageScore⟩

instance : IsTrans UserStat statLE :=
  ⟨fun _ _ _ h₁ h₂ => le_trans h₁ h₂⟩

/-- The window filter of lines 51–53. -/
def inWindow (startDate endDate : Int) (r : ScoreRecord) : Bool :=
  startDate ≤ r.timestamp && r.timestamp ≤ endDate

/-- Function `calculateStats(startDate, endDate)` (lines 47–83): per user, filter to
the window, skip empty, average and bucket, then sort ascending by
`averageScore` (the JS comparator `a.averageScore - b.averageScore`). -/
def calculateStats (store : Store) (startDate endDate : Int) : List UserStat :=
  let stats := store.filterMap (fun entry =>
    let filteredScores := entry.2.filter (inWindow startDate endDate)
    if filteredScores.length > 0 then
      let totalScore := (filteredScores.map (fun s => s.score)).sum
      let averageScore : ℚ := (totalScore : ℚ) / (filteredScores.length : ℚ)
      some { userId := entry.1,
             totalGames := filteredScores.length,
             averageScore := roundTo2 averageScore,
             distribution :=
               filteredScores.foldl (fun d s => distAdd d s.score) emptyDistribution }
    else none)
  List.insertionSort statLE stats

/-! ## Messages and the two ingestion paths -/

/-- A chat message as the bot sees it: snowflake id, author id, channel
name, text, creation time. -/
structure Message where
  id : Nat
  authorId : Nat
  channel : String
  content : String
  createdAt : Int
deriving DecidableEq, Repr

def WORDLE_CHANNEL_NAME : String := "gamers-rise-up"

/-- The parse-and-store idiom shared verbatim by the two producers
(lines 167–179 in the backfill loop, 202–213 in `messageCreate`): parse the
text; on success append, replacing the parser's provisional timestamp with
the message's creation time (`{...score, timestamp: message.createdAt}`). -/
def ingestMessage (st : Store) (m : Message) (now : Int) : Store :=
  match parseWordleScore m.content now with
  | some score => recordScore st m.authorId { score with timestamp := m.createdAt }
  | none => st

/-- The `messageCreate` handler (lines 198–216).  `now` is the clock value
at which `parseWordleScore` runs. -/
def messageCreateHandler (st : Store) (m : Message) (now : Int) : Store :=
  if m.channel ≠ WORDLE_CHANNEL_NAME then st
  else ingestMessage st m now

/-! ## Backfill crawler: `fetchHistoricalMessages` (lines 121–195) -/

/-- Model of the paginated fetch `channel.messages.fetch` with a limit and
a `before` cursor: of the channel history
(ordered newest-first, i.e. by strictly decreasing snowflake id), the
newest `limit` messages strictly older than the cursor. -/
def fetchPage (chan : List Message) (before : Option Nat) (limit : Nat) :
    List Message :=
  (match before with
   | none => chan
   | some b => chan.filter (fun m => m.id < b)).take limit

/-- Discord's page-size limit (line 145). -/
def batchSize : Nat := 100

/-- The per-page loop at lines 160–180.  Returns the updated store and
`true` iff a message older than the horizon was reached, in which case the
crawl `return`s at line 164 having processed neither that message nor any
later one in the page. -/
def processPage (horizon now : Int) : List Message → Store → Store × Bool
  | [], st => (st, false)
  | m :: rest, st =>
    if m.createdAt < horizon then (st, true)
    else processPage horizon now rest (ingestMessage st m now)

/-- Result of the crawl: the store, the messages iterated over in order
(the code keeps only their count, `messagesProcessed`), and whether the
loop ended through one of its own exits rather than fuel exhaustion. -/
structure CrawlResult where
  store : Store
  visited : List Message
  done : Bool
deriving DecidableEq, Repr

/-- The `while (true)` fetch loop at lines 148–189, with explicit fuel:
fetch a page before `lastId`; stop on an empty page; record the page's
oldest id as the next cursor (line 157, `messages.last().id`); process the
page, stopping the whole crawl if it crosses the horizon; stop after an
undersized page; otherwise loop. -/
def crawlLoop (chan : List Message) (horizon now : Int) :
    Nat → Option Nat → Store → List Message → CrawlResult
  | 0, _, st, visited => ⟨st, visited, false⟩
  | fuel + 1, lastId, st, visited =>
    let messages := fetchPage chan lastId batchSize
    if messages.length = 0 then ⟨st, visited, true⟩
    else
      let visited' := visited ++ messages
      let lastId' := match messages.getLast? with
        | some m => some m.id
        | none => lastId
      let res := processPage horizon now messages st
      if res.2 then ⟨res.1, visited', true⟩
      else if messages.length < batchSize then ⟨res.1, visited', true⟩
      else crawlLoop chan horizon now fuel lastId' res.1 visited'

/-- Function `fetchHistoricalMessages` (lines 121–195) on an already-located
channel: crawl from the newest message with an empty initial store.
`horizon` is `oneYearAgo` (lines 139–140), `now` the clock value of the
parse calls. -/
def fetchHistoricalMessages (chan : List Message) (horizon now : Int)
    (fuel : Nat) : CrawlResult :=
  crawlLoop chan horizon now fuel none [] []

/-! ## Command handler window computation (lines 222–248) -/

/-- A JS `Date` by civil fields (`month` is 0-based as in JS). -/
structure JSDate where
  year : Int
  month : Int
  day : Int
  hours : Int
  minutes : Int
  seconds : Int
  ms : Int
deriving DecidableEq, Repr

def isLeapYear (y : Int) : Bool := (y % 4 = 0 && y % 100 ≠ 0) || y % 400 = 0

/-- Days in 0-based month `m` of year `y`. -/
def daysInMonth (y m : Int) : Int :=
  if m = 1 then (if isLeapYear y then 29 else 28)
  else if m = 3 || m = 5 || m = 8 || m = 10 then 30
  else 31

/-- Mutator `d.setHours(0, 0, 0, 0)`. -/
def setHours0 (d : JSDate) : JSDate :=
  { d with hours := 0, minutes := 0, seconds := 0, ms := 0 }

/-- Mutator `d.setMonth(m)`: normalise `m` into year/month (JS accepts any integer)
and roll an out-of-range day-of-month forward into the next month. -/
def setMonth (d : JSDate) (m : Int) : JSDate :=
  let y := d.year + m / 12
  let m' := m % 12
  if d.day ≤ daysInMonth y m' then { d with year := y, month := m', day := d.day }
  else if m' = 11 then
    { d with year := y + 1, month := 0, day := d.day - daysInMonth y m' }
  else
    { d with year := y, month := m' + 1, day := d.day - daysInMonth y m' }

/-- Mutator `d.setFullYear(y)`: set the year, rolling Feb 29 forward when `y` is
not a leap year. -/
def setFullYear (d : JSDate) (y : Int) : JSDate :=
  if d.day ≤ daysInMonth y d.month then { d with year := y }
  else { d with year := y, month := d.month + 1, day := d.day - daysInMonth y d.month }

/-- The `switch (periodChoice)` at lines 228–248 applied to
`startDate = new Date()`: each recognised period subtracts its calendar
offset and floors to midnight; the switch has no `default`, so any other
selector leaves `startDate` untouched. -/
def computeStartDate (periodChoice : String) (now : JSDate) : JSDate :=
  if periodChoice = "today" then setHours0 now
  else if periodChoice = "month" then setHours0 (setMonth now (now.month - 1))
  else if periodChoice = "three_months" then setHours0 (setMonth now (now.month - 3))
  else if periodChoice = "six_months" then setHours0 (setMonth now (now.month - 6))
  else if periodChoice = "year" then setHours0 (setFullYear now (now.year - 1))
  else now

/-- The `[startDate, endDate]` window of the `wordlestats` handler
(lines 224–248): `startDate` and `endDate` both initialise to `new Date()`
(clock values `nowStart`, `nowEnd`); only `startDate` is adjusted. -/
def interactionWindow (periodChoice : String) (nowStart nowEnd : JSDate) :
    JSDate × JSDate :=
  (computeStartDate periodChoice nowStart, nowEnd)

instance (r : ScoreRecord) (st : Store) : Decidable (storeMem r st) := by
  unfold storeMem
  infer_instance

/-! ## Parser lemmas -/

/-- Every field of a successful parse except `timestamp` depends only on
the text, not on the clock value: replacing the timestamps makes the
results of parsing at two different instants literally equal. -/
theorem parse_fields_clock_free (s : String) (t₁ t₂ c : Int) :
    (parseWordleScore s t₁).map (fun r => { r with timestamp := c }) =
    (parseWordleScore s t₂).map (fun r => { r with timestamp := c }) := by
  cases h : searchMatch s.data with
  | none => simp [parseWordleScore, h]
  | some g =>
    obtain ⟨g1, g2, g3, g4⟩ := g
    simp [parseWordleScore, h]

/-- The timestamp of a successful parse is exactly the clock value read
inside the parser (line 40, `timestamp: new Date()`). -/
theorem parse_timestamp_eq_now (s : String) (now : Int) (r : ScoreRecord)
    (h : parseWordleScore s now = some r) : r.timestamp = now := by
  cases hm : searchMatch s.data with
  | none => simp [parseWordleScore, hm] at h
  | some g =>
    obtain ⟨g1, g2, g3, g4⟩ := g
    simp [parseWordleScore, hm] at h
    rw [← h]

/-- Whether the parse succeeds does not depend on the clock. -/
theorem parse_isSome_clock_free (s : String) (t₁ t₂ : Int) :
    (parseWordleScore s t₁).isSome = (parseWordleScore s t₂).isSome := by
  cases h : searchMatch s.data with
  | none => simp [parseWordleScore, h]
  | some g =>
    obtain ⟨g1, g2, g3, g4⟩ := g
    simp [parseWordleScore, h]

/-! ## Claim C1 (corrected) -/

/-- C1, counterexample: the claim says parsing performs no clock reads and
the same text always parses to equal records, the timestamp being supplied
externally.  In the code `parseWordleScore` takes only the text and reads
the clock itself (`timestamp: new Date()`, line 40), so parsing the same
text at two different instants yields different `ScoreRecord`s. -/
theorem parse_clock_read_counterexample :
    parseWordleScore "Wordle 500 X/6" 0 ≠ parseWordleScore "Wordle 500 X/6" 1 := by
  decide

/-- C1, amended: the parser performs no I/O but does read the clock once,
for the provisional `timestamp` field.  It is deterministic in the text on
every other field: parses of the same text at any two instants agree
everywhere except `timestamp`, and the `timestamp` of a parse is exactly
the clock value at parse time (both storage paths later overwrite it with
the message's creation time). -/
theorem parse_deterministic_mod_timestamp (s : String) (t₁ t₂ : Int) :
    (parseWordleScore s t₁).map (fun r => { r with timestamp := 0 }) =
      (parseWordleScore s t₂).map (fun r => { r with timestamp := 0 }) ∧
    ∀ r : ScoreRecord, parseWordleScore s t₁ = some r → r.timestamp = t₁ := by
  exact ⟨parse_fields_clock_free s t₁ t₂ 0,
    fun r h => parse_timestamp_eq_now s t₁ r h⟩

/-- C1, witness for the amended theorem at a concrete text and clock pair. -/
theorem parse_deterministic_mod_timestamp_witness :
    (parseWordleScore "Wordle 500 X/6" 3 = some ⟨500, 7, 6, false, 3⟩) ∧
    (⟨500, 7, 6, false, 3⟩ : ScoreRecord).timestamp = 3 := by
  refine ⟨by decide, ?_⟩
  exact (parse_deterministic_mod_timestamp "Wordle 500 X/6" 3 9).2
    ⟨500, 7, 6, false, 3⟩ (by decide)

/-! ## Claim C5 (confirmed) -/

/-- C5: `parse("Wordle 500 X/6")` succeeds with puzzle number 500, the
failure sentinel 7 for attempts, max attempts 6 and hard mode off; and in
general the captured result token maps to 7 when it is `X`/`x` and to its
own digit value otherwise. -/
theorem parse_X_sentinel :
    (∀ now : Int,
      parseWordleScore "Wordle 500 X/6" now = some ⟨500, 7, 6, false, now⟩) ∧
    ∀ (s : String) (now : Int) (g1 : List Char) (g2 : Char) (g3 g4 : List Char),
      searchMatch s.data = some (g1, g2, g3, g4) →
      parseWordleScore s now =
        some { wordleNumber := digitsToNat (g1.filter (fun c => c ≠ ',')),
               score := if charUpper g2 = 'X' then 7 else digitsToNat [g2],
               maxAttempts := digitsToNat g3,
               hardMode := g4 = ['*'],
               timestamp := now } := by
  constructor
  · intro now
    have h : searchMatch ("Wordle 500 X/6").data =
        some (⟨"500".data, 'X', "6".data, []⟩ : Captures) := by decide
    simp [parseWordleScore, h]
    decide
  · intro s now g1 g2 g3 g4 h
    simp [parseWordleScore, h]

/-- C5, witness: the general token-mapping clause applied to a concrete
lower-case `x` line. -/
theorem parse_X_sentinel_witness :
    parseWordleScore "Wordle 999 x/6" 5 = some ⟨999, 7, 6, false, 5⟩ := by
  have h := parse_X_sentinel.2 "Wordle 999 x/6" 5 "999".data 'x' "6".data []
    (by decide)
  rw [h]
  decide

/-! ## Claim C6 (confirmed) -/

/-- C6: `parse("Wordle 1,234 3/6*")` succeeds with puzzle number 1234 (the
comma is stripped before integer conversion), attempts 3, max attempts 6
and hard mode on. -/
theorem parse_comma_hardmode (now : Int) :
    parseWordleScore "Wordle 1,234 3/6*" now = some ⟨1234, 3, 6, true, now⟩ := by
  have h : searchMatch ("Wordle 1,234 3/6*").data =
      some (⟨"1,234".data, '3', "6".data, ['*']⟩ : Captures) := by decide
  simp [parseWordleScore, h]
  decide

/-! ## Claim C10 (confirmed) -/

/-- C10: the regex is unanchored, so any text containing the score pattern
anywhere — arbitrary text before or after — parses to a record: if the
anchored matcher succeeds at any offset `i` into the text, the parse
returns `some`. -/
theorem parse_unanchored (s : String) (now : Int)
    (h : ∃ i : Nat, (matchAt (s.data.drop i)).isSome) :
    (parseWordleScore s now).isSome := by
  obtain ⟨i, hi⟩ := h
  have key : ∀ (l : List Char) (i : Nat),
      (matchAt (l.drop i)).isSome → (searchMatch l).isSome := by
    intro l
    induction l with
    | nil =>
      intro i hi
      simpa using hi
    | cons c t ih =>
      intro i hi
      cases i with
      | zero =>
        simp only [List.drop] at hi
        rw [searchMatch]
        cases hm : matchAt (c :: t) with
        | none => rw [hm] at hi; simp at hi
        | some g => simp
      | succ j =>
        rw [searchMatch]
        cases hm : matchAt (c :: t) with
        | none => exact ih j hi
        | some g => simp
  have hs := key s.data i hi
  cases hm : searchMatch s.data with
  | none => rw [hm] at hs; simp at hs
  | some g =>
    obtain ⟨g1, g2, g3, g4⟩ := g
    simp [parseWordleScore, hm]

/-- C10, witness: a line with chatter both before and after the score
still parses. -/
theorem parse_unanchored_witness :
    (parseWordleScore "gg! Wordle 77 2/6 lucky one" 0).isSome := by
  exact parse_unanchored "gg! Wordle 77 2/6 lucky one" 0 ⟨4, by decide⟩

/-! ## Store lemmas -/

/-- A record in the store after an append was already there, or is the
appended record. -/
theorem recordScore_mem (st : Store) (uid : Nat) (r r' : ScoreRecord)
    (h : storeMem r' (recordScore st uid r)) : storeMem r' st ∨ r' = r := by
  unfold recordScore at h
  split at h
  · obtain ⟨e, he, hr⟩ := h
    rw [List.mem_map] at he
    obtain ⟨e₀, he₀, rfl⟩ := he
    split at hr
    · rcases List.mem_append.mp hr with h' | h'
      · exact Or.inl ⟨e₀, he₀, h'⟩
      · exact Or.inr (List.mem_singleton.mp h')
    · exact Or.inl ⟨e₀, he₀, hr⟩
  · obtain ⟨e, he, hr⟩ := h
    rcases List.mem_append.mp he with h' | h'
    · exact Or.inl ⟨e, h', hr⟩
    · rw [List.mem_singleton.mp h'] at hr
      exact Or.inr (List.mem_singleton.mp hr)

/-- A record in the store after ingesting a message was already there, or
carries the message's creation time as its timestamp. -/
theorem ingestMessage_mem (st : Store) (m : Message) (now : Int)
    (r : ScoreRecord) (h : storeMem r (ingestMessage st m now)) :
    storeMem r st ∨ r.timestamp = m.createdAt := by
  unfold ingestMessage at h
  cases hp : parseWordleScore m.content now with
  | none => rw [hp] at h; exact Or.inl h
  | some score =>
    rw [hp] at h
    rcases recordScore_mem _ _ _ _ h with h' | h'
    · exact Or.inl h'
    · rw [h']
      exact Or.inr rfl

/-- Ingesting a message does not depend on the clock value at which the
parse runs: the stored timestamp comes from the message, not the clock. -/
theorem ingestMessage_clock_free (st : Store) (m : Message) (t₁ t₂ : Int) :
    ingestMessage st m t₁ = ingestMessage st m t₂ := by
  unfold ingestMessage
  have hmap := parse_fields_clock_free m.content t₁ t₂ m.createdAt
  cases h1 : parseWordleScore m.content t₁ with
  | none =>
    cases h2 : parseWordleScore m.content t₂ with
    | none => rfl
    | some s2 => rw [h1, h2] at hmap; simp at hmap
  | some s1 =>
    cases h2 : parseWordleScore m.content t₂ with
    | none => rw [h1, h2] at hmap; simp at hmap
    | some s2 =>
      rw [h1, h2] at hmap
      simp only [Option.map_some', Option.some_inj] at hmap
      exact congrArg (recordScore st m.authorId) hmap

/-- With pairwise-distinct keys, `find?` at the key of an entry returns
that entry. -/
theorem find?_of_nodup_keys (st : Store) (e : Nat × List ScoreRecord)
    (hnd : (st.map Prod.fst).Nodup) (he : e ∈ st) :
    st.find? (fun x => x.1 == e.1) = some e := by
  induction st with
  | nil => simp at he
  | cons hd t ih =>
    rw [List.map_cons, List.nodup_cons] at hnd
    obtain ⟨hh, ht⟩ := hnd
    rcases List.mem_cons.mp he with rfl | hmem
    · simp [List.find?]
    · have hne : hd.1 ≠ e.1 := by
        intro hEq
        exact hh (hEq ▸ List.mem_map.mpr ⟨e, hmem, rfl⟩)
      rw [List.find?]
      have hb : (hd.1 == e.1) = false := by simpa using hne
      rw [hb]
      exact ih ht hmem

/-- With pairwise-distinct keys, the records of the user of an entry are
that entry's list. -/
theorem userRecords_of_mem (st : Store) (e : Nat × List ScoreRecord)
    (hnd : (st.map Prod.fst).Nodup) (he : e ∈ st) :
    userRecords st e.1 = e.2 := by
  unfold userRecords
  rw [find?_of_nodup_keys st e hnd he]

/-! ## Distribution lemmas -/

/-- Each step of the distribution loop adds exactly one to the bucket
total, whichever bucket it lands in. -/
theorem distSum_distAdd (d : Distribution) (s : Nat) :
    distSum (distAdd d s) = distSum d + 1 := by
  unfold distAdd
  split
  · rename_i h
    obtain ⟨h1, h2⟩ := h
    interval_cases s <;> simp [distSum] <;> omega
  · simp [distSum]
    omega

/-- Folding the distribution loop over a list adds the list's length to
the bucket total. -/
theorem distSum_foldl (l : List ScoreRecord) (d : Distribution) :
    distSum (l.foldl (fun d s => distAdd d s.score) d) = distSum d + l.length := by
  induction l generalizing d with
  | nil => simp
  | cons x t ih =>
    rw [List.foldl_cons, ih, distSum_distAdd]
    simp [List.length_cons]
    omega

/-! ## Claim C3 (confirmed) -/

/-- C3: every emitted `UserStat`'s seven bucket counts sum exactly to
`totalGames`, and `totalGames` is the number of that user's stored records
with timestamp inside `[start, end]`, both ends inclusive.  (Distinct store
keys are an invariant of the JS `Map` the store embeds.) -/
theorem calculateStats_totals (store : Store) (s e : Int)
    (hnd : (store.map Prod.fst).Nodup) :
    (calculateStats store s e).Forall (fun stat =>
      distSum stat.distribution = stat.totalGames ∧
      stat.totalGames =
        ((userRecords store stat.userId).filter (inWindow s e)).length) := by
  rw [List.forall_iff_forall_mem]
  intro stat hmem
  simp only [calculateStats] at hmem
  rw [(List.perm_insertionSort statLE _).mem_iff] at hmem
  rw [List.mem_filterMap] at hmem
  obtain ⟨entry, hentry, heq⟩ := hmem
  split at heq
  · rename_i hlen
    rw [Option.some_inj] at heq
    rw [← heq]
    refine ⟨?_, ?_⟩
    · rw [distSum_foldl]
      simp [emptyDistribution, distSum]
    · rw [userRecords_of_mem store entry hnd hentry]
  · exact absurd heq (by simp)

/-- C3, witness: the aggregation invariant at a concrete two-user store
and window. -/
theorem calculateStats_totals_witness :
    (calculateStats
        [(1, [⟨500, 2, 6, false, 1⟩, ⟨501, 4, 6, false, 2⟩, ⟨502, 7, 6, false, 20⟩]),
         (2, [⟨500, 3, 6, true, 5⟩])] 0 10).Forall (fun stat =>
      distSum stat.distribution = stat.totalGames ∧
      stat.totalGames =
        ((userRecords
            [(1, [⟨500, 2, 6, false, 1⟩, ⟨501, 4, 6, false, 2⟩, ⟨502, 7, 6, false, 20⟩]),
             (2, [⟨500, 3, 6, true, 5⟩])] stat.userId).filter (inWindow 0 10)).length) :=
  calculateStats_totals _ 0 10 (by decide)

/-! ## Claim C8 (confirmed) -/

/-- C8: for every window, the emitted sequence is sorted ascending —
non-decreasing — in `averageScore`. -/
theorem calculateStats_sorted (store : Store) (s e : Int) :
    List.Pairwise (fun a b : UserStat => a.averageScore ≤ b.averageScore)
      (calculateStats store s e) := by
  unfold calculateStats
  exact List.sorted_insertionSort statLE _

/-! ## Crawler lemmas -/

/-- A record in the store after a page was processed was already there, or
came from a page message at or after the horizon and carries that
message's creation time. -/
theorem processPage_mem (horizon now : Int) (msgs : List Message)
    (st : Store) (r : ScoreRecord)
    (h : storeMem r (processPage horizon now msgs st).1) :
    storeMem r st ∨ ∃ m ∈ msgs, horizon ≤ m.createdAt ∧ r.timestamp = m.createdAt := by
  induction msgs generalizing st with
  | nil => exact Or.inl h
  | cons m rest ih =>
    rw [processPage] at h
    split at h
    · exact Or.inl h
    · rename_i hge
      rcases ih _ h with h' | ⟨m', hm', hts⟩
      · rcases ingestMessage_mem _ _ _ _ h' with h'' | hts
        · exact Or.inl h''
        · exact Or.inr ⟨m, List.mem_cons_self m rest, le_of_not_lt hge, hts⟩
      · exact Or.inr ⟨m', List.mem_cons_of_mem m hm', hts⟩

/-- Processing a page does not depend on the clock value of the parses. -/
theorem processPage_clock_free (horizon t₁ t₂ : Int) (msgs : List Message)
    (st : Store) :
    processPage horizon t₁ msgs st = processPage horizon t₂ msgs st := by
  induction msgs generalizing st with
  | nil => rfl
  | cons m rest ih =>
    rw [processPage, processPage]
    by_cases hc : m.createdAt < horizon
    · rw [if_pos hc, if_pos hc]
    · rw [if_neg hc, if_neg hc, ingestMessage_clock_free st m t₁ t₂]
      exact ih _

/-- A page entirely at or after the horizon is processed to the end: the
crossing flag stays `false`. -/
theorem processPage_no_cross (horizon now : Int) (msgs : List Message)
    (st : Store) (h : ∀ m ∈ msgs, horizon ≤ m.createdAt) :
    (processPage horizon now msgs st).2 = false := by
  induction msgs generalizing st with
  | nil => rfl
  | cons m rest ih =>
    rw [processPage]
    rw [if_neg (not_lt.mpr (h m (List.mem_cons_self m rest)))]
    exact ih _ (fun m' hm' => h m' (List.mem_cons_of_mem m hm'))

/-- A record in the store after any number of crawl iterations was already
there, or has a timestamp at or after the horizon. -/
theorem crawlLoop_mem (chan : List Message) (horizon now : Int)
    (fuel : Nat) (cur : Option Nat) (st : Store) (vis : List Message)
    (r : ScoreRecord)
    (h : storeMem r (crawlLoop chan horizon now fuel cur st vis).store) :
    storeMem r st ∨ horizon ≤ r.timestamp := by
  induction fuel generalizing cur st vis with
  | zero => exact Or.inl h
  | succ n ih =>
    have hpp : ∀ r' : ScoreRecord,
        storeMem r' (processPage horizon now (fetchPage chan cur batchSize) st).1 →
        storeMem r' st ∨ horizon ≤ r'.timestamp := by
      intro r' hr'
      rcases processPage_mem horizon now (fetchPage chan cur batchSize) st r' hr'
        with h'' | ⟨m, _, hhor, hts⟩
      · exact Or.inl h''
      · exact Or.inr (hts ▸ hhor)
    simp only [crawlLoop] at h
    split at h
    · exact Or.inl h
    · split at h
      · exact hpp r h
      · split at h
        · exact hpp r h
        · rcases ih _ _ _ h with h' | h'
          · exact hpp r h'
          · exact Or.inr h'

/-! ## Claim C2 (confirmed) -/

/-- C2: the crawler never stores a record with timestamp older than the
horizon — every record in the store after the crawl was there initially or
has `horizon ≤ timestamp`, even when the horizon is crossed mid-page; and
on reaching a message older than the horizon the page loop stops at once,
returning the store untouched by that message and by every later one. -/
theorem backfill_horizon_safe (chan : List Message) (horizon now : Int)
    (fuel : Nat) (cur : Option Nat) (st : Store) (vis : List Message) :
    (∀ r : ScoreRecord,
      storeMem r (crawlLoop chan horizon now fuel cur st vis).store →
      storeMem r st ∨ horizon ≤ r.timestamp) ∧
    (∀ (m : Message) (rest : List Message) (st' : Store),
      m.createdAt < horizon →
      processPage horizon now (m :: rest) st' = (st', true)) := by
  constructor
  · intro r h
    exact crawlLoop_mem chan horizon now fuel cur st vis r h
  · intro m rest st' hold
    rw [processPage, if_pos hold]

/-- C2, witness: a one-page channel whose single fresh message is stored
(its record timestamp is at or after the horizon), and an old message at
the head of a page stops processing with the store unchanged. -/
theorem backfill_horizon_safe_witness :
    (storeMem ⟨5, 3, 6, false, 50⟩ ([] : Store) ∨ (0 : Int) ≤ (50 : Int)) ∧
    processPage 0 0 [⟨9, 2, "gamers-rise-up", "Wordle 6 2/6", -7⟩] [] = ([], true) := by
  constructor
  · exact (backfill_horizon_safe
      [⟨10, 1, "gamers-rise-up", "Wordle 5 3/6", 50⟩] 0 0 2 none [] []).1
      ⟨5, 3, 6, false, 50⟩ (by decide)
  · exact (backfill_horizon_safe [] 0 0 1 none [] []).2
      ⟨9, 2, "gamers-rise-up", "Wordle 6 2/6", -7⟩ [] [] (by decide)

/-! ## Claim C7 (confirmed) -/

/-- C7: on both ingestion paths every stored record's timestamp is the
originating message's creation time, never the parse-time clock: a record
present after the live handler (resp. after a backfill page) was already
in the store or carries the creation time of that message (resp. of some
page message); and the live handler's result does not depend on the
parse-time clock at all. -/
theorem stored_timestamp_is_creation_time (st : Store) (m : Message)
    (now now' : Int) :
    (∀ r : ScoreRecord, storeMem r (messageCreateHandler st m now) →
      storeMem r st ∨ r.timestamp = m.createdAt) ∧
    (∀ (horizon : Int) (msgs : List Message) (st₀ : Store) (r : ScoreRecord),
      storeMem r (processPage horizon now msgs st₀).1 →
      storeMem r st₀ ∨ ∃ mm ∈ msgs, r.timestamp = mm.createdAt) ∧
    messageCreateHandler st m now = messageCreateHandler st m now' := by
  refine ⟨?_, ?_, ?_⟩
  · intro r h
    unfold messageCreateHandler at h
    split at h
    · exact Or.inl h
    · exact ingestMessage_mem st m now r h
  · intro horizon msgs st₀ r h
    rcases processPage_mem horizon now msgs st₀ r h with h' | ⟨mm, hmm, _, hts⟩
    · exact Or.inl h'
    · exact Or.inr ⟨mm, hmm, hts⟩
  · unfold messageCreateHandler
    split
    · rfl
    · exact ingestMessage_clock_free st m now now'

/-- C7, witness: a live message and a one-message backfill page, stored at
two different parse clocks, both record the message's creation time. -/
theorem stored_timestamp_is_creation_time_witness :
    (storeMem ⟨10, 4, 6, false, 123⟩ ([] : Store) ∨
      (⟨10, 4, 6, false, 123⟩ : ScoreRecord).timestamp = (123 : Int)) ∧
    (storeMem ⟨10, 4, 6, false, 123⟩ ([] : Store) ∨
      ∃ mm ∈ [(⟨1, 7, "gamers-rise-up", "Wordle 10 4/6", 123⟩ : Message)],
        (⟨10, 4, 6, false, 123⟩ : ScoreRecord).timestamp = mm.createdAt) ∧
    messageCreateHandler [] ⟨1, 7, "gamers-rise-up", "Wordle 10 4/6", 123⟩ 0 =
      messageCreateHandler [] ⟨1, 7, "gamers-rise-up", "Wordle 10 4/6", 123⟩ 1 := by
  refine ⟨?_, ?_, ?_⟩
  · exact (stored_timestamp_is_creation_time []
      ⟨1, 7, "gamers-rise-up", "Wordle 10 4/6", 123⟩ 0 1).1
      ⟨10, 4, 6, false, 123⟩ (by decide)
  · exact (stored_timestamp_is_creation_time []
      ⟨1, 7, "gamers-rise-up", "Wordle 10 4/6", 123⟩ 0 1).2.1 0
      [⟨1, 7, "gamers-rise-up", "Wordle 10 4/6", 123⟩] []
      ⟨10, 4, 6, false, 123⟩ (by decide)
  · exact (stored_timestamp_is_creation_time []
      ⟨1, 7, "gamers-rise-up", "Wordle 10 4/6", 123⟩ 0 1).2.2

/-! ## Crawl completeness lemmas -/

/-- In a newest-first (strictly decreasing by id) list, the last element
has the least id. -/
theorem last_lower_bound (l : List Message) (hne : l ≠ [])
    (hp : l.Pairwise (fun a b => b.id < a.id)) :
    ∀ a ∈ l, (l.getLast hne).id ≤ a.id := by
  intro a ha
  have hsplit := List.dropLast_append_getLast hne
  rw [← hsplit] at hp ha
  rw [List.pairwise_append] at hp
  rcases List.mem_append.mp ha with h | h
  · exact le_of_lt (hp.2.2 a h _ (List.mem_singleton.mpr rfl))
  · rw [List.mem_singleton.mp h]

/-- Cursor adequacy: on a newest-first channel split as `pre ++ rem`, a
fetch before the id of the last (= oldest) processed message returns
exactly the next `limit` unprocessed messages. -/
theorem fetchPage_cursor (pre rem : List Message) (hne : pre ≠ [])
    (hs : (pre ++ rem).Pairwise (fun a b => b.id < a.id)) (limit : Nat) :
    fetchPage (pre ++ rem) (some ((pre.getLast hne).id)) limit = rem.take limit := by
  simp only [fetchPage]
  congr 1
  rw [List.filter_append]
  have h1 : List.filter (fun m => decide (m.id < (pre.getLast hne).id)) pre = [] := by
    rw [List.filter_eq_nil_iff]
    intro a ha
    have := last_lower_bound pre hne (List.pairwise_append.mp hs).1 a ha
    simp only [decide_eq_true_eq]
    omega
  have h2 : List.filter (fun m => decide (m.id < (pre.getLast hne).id)) rem = rem := by
    rw [List.filter_eq_self]
    intro b hb
    simp only [decide_eq_true_eq]
    exact (List.pairwise_append.mp hs).2.2 _ (List.getLast_mem hne) b hb
  rw [h1, h2, List.nil_append]

/-- Crawl completeness: on a newest-first channel all of whose messages
are at or after the horizon, a crawl resumed after the processed prefix
`pre` (the cursor holding the id of `pre`'s last message, or none at the
start) with fuel beyond the remaining length ends through its own exit and
visits exactly the remaining messages, in order. -/
theorem crawlLoop_complete (chan : List Message) (horizon now : Int)
    (hs : chan.Pairwise (fun a b => b.id < a.id))
    (hn : ∀ m ∈ chan, horizon ≤ m.createdAt) :
    ∀ (fuel : Nat) (pre rem : List Message) (st : Store) (vis : List Message),
      chan = pre ++ rem → rem.length + 1 ≤ fuel →
      (crawlLoop chan horizon now fuel
        (pre.getLast?.map (fun m => m.id)) st vis).done = true ∧
      (crawlLoop chan horizon now fuel
        (pre.getLast?.map (fun m => m.id)) st vis).visited = vis ++ rem := by
  intro fuel
  induction fuel with
  | zero =>
    intro pre rem st vis hchan hfuel
    omega
  | succ n ih =>
    intro pre rem st vis hchan hfuel
    have hpage : fetchPage chan (pre.getLast?.map (fun m => m.id)) batchSize =
        rem.take batchSize := by
      rcases eq_or_ne pre [] with hpre | hpre
      · subst hpre
        rw [List.nil_append] at hchan
        simp [fetchPage, hchan]
      · rw [List.getLast?_eq_getLast pre hpre, Option.map_some', hchan]
        exact fetchPage_cursor pre rem hpre (hchan ▸ hs) batchSize
    have hremmem : ∀ m ∈ rem.take batchSize, m ∈ chan := by
      intro m hm
      rw [hchan]
      exact List.mem_append_right pre (List.take_subset batchSize rem hm)
    have hcross : (processPage horizon now (rem.take batchSize) st).2 = false :=
      processPage_no_cross horizon now _ st (fun m hm => hn m (hremmem m hm))
    rcases eq_or_ne rem [] with hrem | hrem
    · subst hrem
      have heq : crawlLoop chan horizon now (n + 1)
          (pre.getLast?.map (fun m => m.id)) st vis = ⟨st, vis, true⟩ := by
        simp [crawlLoop, hpage]
      rw [heq]
      exact ⟨rfl, by simp⟩
    · have hlen0 : ¬ (rem.take batchSize).length = 0 := by
        rw [List.length_eq_zero]
        intro h0
        rcases Nat.lt_or_ge rem.length batchSize with hlt | hge
        · rw [List.take_of_length_le (le_of_lt hlt)] at h0
          exact hrem h0
        · have : (rem.take batchSize).length = batchSize := by
            rw [List.length_take]
            omega
          rw [h0] at this
          simp [batchSize] at this
      rcases Nat.lt_or_ge rem.length batchSize with hsmall | hbig
      · have htake : rem.take batchSize = rem := List.take_of_length_le (le_of_lt hsmall)
        have hlt : (rem.take batchSize).length < batchSize := by
          rw [htake]
          exact hsmall
        have hcond : ¬ ((processPage horizon now (rem.take batchSize) st).2 = true) := by
          rw [hcross]
          simp
        have heq : crawlLoop chan horizon now (n + 1)
            (pre.getLast?.map (fun m => m.id)) st vis =
            ⟨(processPage horizon now (rem.take batchSize) st).1,
              vis ++ rem.take batchSize, true⟩ := by
          simp only [crawlLoop, hpage]
          rw [if_neg hlen0, if_neg hcond, if_pos hlt]
        rw [heq, htake]
        exact ⟨rfl, rfl⟩
      · have htakelen : (rem.take batchSize).length = batchSize := by
          rw [List.length_take]
          omega
        have htkne : rem.take batchSize ≠ [] := by
          intro h0
          rw [h0] at htakelen
          simp [batchSize] at htakelen
        have hnotlt : ¬ (rem.take batchSize).length < batchSize := by
          rw [htakelen]
          omega
        have hcursor :
            (match (rem.take batchSize).getLast? with
              | some m => some m.id
              | none => pre.getLast?.map (fun m => m.id)) =
            (pre ++ rem.take batchSize).getLast?.map (fun m => m.id) := by
          rw [List.getLast?_eq_getLast _ htkne, List.getLast?_append,
            List.getLast?_eq_getLast _ htkne]
          rfl
        have hcond : ¬ ((processPage horizon now (rem.take batchSize) st).2 = true) := by
          rw [hcross]
          simp
        have heq : crawlLoop chan horizon now (n + 1)
            (pre.getLast?.map (fun m => m.id)) st vis =
            crawlLoop chan horizon now n
              ((pre ++ rem.take batchSize).getLast?.map (fun m => m.id))
              (processPage horizon now (rem.take batchSize) st).1
              (vis ++ rem.take batchSize) := by
          simp only [crawlLoop, hpage]
          rw [if_neg hlen0, if_neg hcond, if_neg hnotlt, hcursor]
        have hih := ih (pre ++ rem.take batchSize) (rem.drop batchSize)
          (processPage horizon now (rem.take batchSize) st).1
          (vis ++ rem.take batchSize)
          (by rw [hchan, List.append_assoc, List.take_append_drop])
          (by rw [List.length_drop]; omega)
        rw [heq]
        refine ⟨hih.1, ?_⟩
        rw [hih.2, List.append_assoc, List.take_append_drop]

/-! ## Claim C4 (confirmed) -/

/-- C4: on a finite newest-first history all newer than the horizon, the
crawler (pages of at most `batchSize = 100`, cursor set after each page to
that page's oldest message) terminates through its own exit — an empty or
undersized page — and its visitation sequence is exactly the channel:
every message visited exactly once, none skipped, none double-counted. -/
theorem backfill_exactly_once (chan : List Message) (horizon now : Int)
    (st : Store) (fuel : Nat)
    (hs : chan.Pairwise (fun a b => b.id < a.id))
    (hn : ∀ m ∈ chan, horizon ≤ m.createdAt)
    (hf : chan.length + 1 ≤ fuel) :
    (crawlLoop chan horizon now fuel none st []).done = true ∧
    (crawlLoop chan horizon now fuel none st []).visited = chan := by
  have h := crawlLoop_complete chan horizon now hs hn fuel [] chan st []
    (by rw [List.nil_append]) hf
  simpa using h

/-- C4, witness: a three-message newest-first channel, horizon older than
all of it, crawled to completion. -/
theorem backfill_exactly_once_witness :
    (crawlLoop
      [⟨30, 1, "gamers-rise-up", "Wordle 3 1/6", 5⟩,
       ⟨20, 2, "gamers-rise-up", "no score here", 4⟩,
       ⟨10, 1, "gamers-rise-up", "Wordle 2 X/6", 3⟩] 0 0 4 none [] []).done = true ∧
    (crawlLoop
      [⟨30, 1, "gamers-rise-up", "Wordle 3 1/6", 5⟩,
       ⟨20, 2, "gamers-rise-up", "no score here", 4⟩,
       ⟨10, 1, "gamers-rise-up", "Wordle 2 X/6", 3⟩] 0 0 4 none [] []).visited =
      [⟨30, 1, "gamers-rise-up", "Wordle 3 1/6", 5⟩,
       ⟨20, 2, "gamers-rise-up", "no score here", 4⟩,
       ⟨10, 1, "gamers-rise-up", "Wordle 2 X/6", 3⟩] :=
  backfill_exactly_once _ 0 0 [] 4 (by decide) (by decide) (by decide)

/-! ## Claim C9 (confirmed) -/

/-- C9: a period selector outside the enumerated set falls through the
`switch` untouched: no calendar offset is subtracted and no flooring to
midnight happens, so the window is `(now, now)` — start keeps its
initialized "now" value and end is now. -/
theorem unrecognized_period_window (periodChoice : String)
    (nowStart nowEnd : JSDate)
    (h : periodChoice ∉
      (["today", "month", "three_months", "six_months", "year"] : List String)) :
    interactionWindow periodChoice nowStart nowEnd = (nowStart, nowEnd) := by
  simp only [List.mem_cons, List.mem_singleton, not_or] at h
  obtain ⟨h1, h2, h3, h4, h5, -⟩ := h
  unfold interactionWindow computeStartDate
  rw [if_neg h1, if_neg h2, if_neg h3, if_neg h4, if_neg h5]

/-- C9, witness: the selector "fortnight" at a concrete clock value leaves
the window as `(now, now)`. -/
theorem unrecognized_period_window_witness :
    interactionWindow "fortnight" ⟨2024, 5, 15, 10, 30, 2, 250⟩
      ⟨2024, 5, 15, 10, 30, 2, 251⟩ =
    (⟨2024, 5, 15, 10, 30, 2, 250⟩, ⟨2024, 5, 15, 10, 30, 2, 251⟩) :=
  unrecognized_period_window "fortnight" _ _ (by decide)

end WordleBot
